import Mathlib

/-!
Verification of the session/stream lifecycle layer of the actual-budget MCP
server.  The development shallowly embeds the TypeScript source:

* `src/inMemoryEventStore.ts` — the resumable-stream event store
  (`InMemoryEventStore`): program strings are modeled as `List Char`,
  the JS `Map` as an insertion-ordered association list with unique keys,
  `Date.now()` and the `Math.random().toString(36).substring(2, 10)` suffix
  as explicit inputs of each `storeEvent` call, and
  `localeCompare`-based sorting as lexicographic order on characters.
* `src/server.ts` — the HTTP request handlers (`mcpPostHandler`,
  `mcpGetHandler`, `mcpDeleteHandler`) over the session registry
  (`transports` map), and the tool registry built by `registerTools`.
* `src/actual/client.ts` — the `ActualClient` lifecycle:
  `initActualApi`, `ensureReady`, `shutdown`, modeled both as a sequential
  state transformer and as a small interleaving transition system for the
  concurrency claims.
-/

/-! ### Strings of the program, modeled as character lists -/

/-- Program strings (JS strings) as lists of characters. -/
abbrev Str := List Char

/-- JS whitespace recognizer used by `String.prototype.trim`
(space, tab, line feed, carriage return, vertical tab, form feed,
no-break space). -/
def isJsWs (c : Char) : Bool :=
  [' ', '\t', '\n', '\r', '\x0b', '\x0c', ' '].contains c

/-- JS `String.prototype.trim`: strip leading and trailing whitespace. -/
def jsTrim (l : Str) : Str :=
  ((l.dropWhile isJsWs).reverse.dropWhile isJsWs).reverse

/-- JS `String.prototype.split(sep)` with a one-character separator. -/
def splitOnChar (c : Char) : Str → List Str
  | [] => [[]]
  | x :: xs =>
    if x = c then [] :: splitOnChar c xs
    else
      match splitOnChar c xs with
      | [] => [[x]]
      | h :: t => (x :: h) :: t

/-- Lexicographic strict order on program strings; this models the ordering
induced by the `a.localeCompare(b)` sort comparator in the event store. -/
def lexLt : Str → Str → Bool
  | [], [] => false
  | [], _ :: _ => true
  | _ :: _, [] => false
  | a :: as, b :: bs => if a < b then true else if b < a then false else lexLt as bs

/-- Decimal rendering loop of a natural number (fuel-driven structural
recursion; `fuel ≥ n` suffices since `n` loses at least one digit per step). -/
def natToDigitsAux : Nat → Nat → List Char → List Char
  | 0, n, acc => Nat.digitChar (n % 10) :: acc
  | fuel + 1, n, acc =>
    let d : Char := Nat.digitChar (n % 10)
    if n < 10 then d :: acc
    else natToDigitsAux fuel (n / 10) (d :: acc)

/-- Decimal digit string of a natural number, as produced by interpolating a
JS number into a template literal (`${Date.now()}`). -/
def natToDigits (n : Nat) : List Char := natToDigitsAux n n []

/-- Decimal value of a digit string (left inverse of `natToDigits`). -/
def digitsVal (l : List Char) : Nat :=
  l.foldl (fun a c => 10 * a + (c.toNat - 48)) 0

/-! ### The in-memory event store (`src/inMemoryEventStore.ts`) -/

/-- The value stored against an event id: the owning stream and the message
(the `JSONRPCMessage` payload is opaque to the store and modeled as a raw
string). -/
structure StoredEvent where
  streamId : Str
  message : Str
deriving DecidableEq, Repr

/-- The private `events` field: a JS `Map` from event id to stored event,
modeled as an insertion-ordered association list with unique keys. -/
abbrev EventsMap := List (Str × StoredEvent)

/-- JS `Map.prototype.has`. -/
def mapHas (m : EventsMap) (k : Str) : Bool :=
  m.any fun e => e.1 == k

/-- JS `Map.prototype.set`: update in place if the key exists (keeping its
position), otherwise append. -/
def mapSet (m : EventsMap) (k : Str) (v : StoredEvent) : EventsMap :=
  match m with
  | [] => [(k, v)]
  | (k', v') :: rest => if k' = k then (k, v) :: rest else (k', v') :: mapSet rest k v

/-- The function `generateEventId` builds `` `${streamId}_${Date.now()}_${rand}` `` where
`now` is the millisecond timestamp and `rand` the random base-36 suffix
produced at the call; both are environment inputs of the call. -/
def generateEventId (streamId : Str) (now : Nat) (rand : Str) : Str :=
  streamId ++ ('_' :: (natToDigits now ++ ('_' :: rand)))

/-- The function `getStreamIdFromEventId` computes `eventId.split('_')`, then `parts[0]` if the
array is nonempty and `''` otherwise (`split` never returns an empty array,
and neither does `splitOnChar`). -/
def getStreamIdFromEventId (eventId : Str) : Str :=
  (splitOnChar '_' eventId).headD []

/-- The method `storeEvent(streamId, message)`: generate a fresh id from the call's
timestamp and random suffix, insert into the map, return the id. -/
def storeEvent (events : EventsMap) (streamId message : Str) (now : Nat) (rand : Str) :
    EventsMap × Str :=
  let eventId := generateEventId streamId now rand
  (mapSet events eventId ⟨streamId, message⟩, eventId)

/-- Sort comparator of `replayEventsAfter`
(`a[0].localeCompare(b[0])`, ascending). -/
def entryLe (a b : Str × StoredEvent) : Prop := lexLt b.1 a.1 = false

instance : DecidableRel entryLe := fun a b =>
  inferInstanceAs (Decidable (lexLt b.1 a.1 = false))

/-- The scan loop of `replayEventsAfter` over the sorted entries, carrying the
`foundLastEvent` flag; returns the `(eventId, message)` pairs passed to the
sink, in order. -/
def replayScan (streamId lastEventId : Str) :
    List (Str × StoredEvent) → Bool → List (Str × Str)
  | [], _ => []
  | (eventId, ev) :: rest, found =>
    if ev.streamId ≠ streamId then replayScan streamId lastEventId rest found
    else if eventId = lastEventId then replayScan streamId lastEventId rest true
    else if found then (eventId, ev.message) :: replayScan streamId lastEventId rest found
    else replayScan streamId lastEventId rest found

/-- The method `replayEventsAfter(lastEventId, sink)` returns the stream id result
together with the list of events forwarded to the sink, in order. -/
def replayEventsAfter (events : EventsMap) (lastEventId : Str) : Str × List (Str × Str) :=
  if jsTrim lastEventId = [] ∨ mapHas events lastEventId = false then ([], [])
  else
    let streamId := getStreamIdFromEventId lastEventId
    if streamId = [] then ([], [])
    else (streamId, replayScan streamId lastEventId (List.insertionSort entryLe events) false)

/-- One `storeEvent` call: its arguments together with the environment values
(`Date.now()` timestamp, random suffix) observed during the call. -/
structure StoreCall where
  streamId : Str
  message : Str
  now : Nat
  rand : Str
deriving DecidableEq, Repr

/-- The event id a call produces. -/
def callId (c : StoreCall) : Str := generateEventId c.streamId c.now c.rand

/-- The map entry a call produces. -/
def callEntry (c : StoreCall) : Str × StoredEvent :=
  (callId c, ⟨c.streamId, c.message⟩)

/-- The store obtained by performing a sequence of `storeEvent` calls on a
fresh `InMemoryEventStore`. -/
def buildStore (calls : List StoreCall) : EventsMap :=
  calls.foldl (fun m c => (storeEvent m c.streamId c.message c.now c.rand).1) []

/-- The calls that stored events on stream `s`, in insertion order. -/
def streamEvents (s : Str) (calls : List StoreCall) : List StoreCall :=
  calls.filter fun c => c.streamId == s

/-- Placeholder call used with `List.getD`. -/
def dummyCall : StoreCall := ⟨[], [], 0, []⟩

/-! ### Arithmetic facts about decimal rendering -/

theorem natToDigitsAux_append (fuel : Nat) : ∀ n acc,
    natToDigitsAux fuel n acc = natToDigitsAux fuel n [] ++ acc := by
  induction fuel with
  | zero => intro n acc; simp [natToDigitsAux]
  | succ fuel ih =>
    intro n acc
    by_cases h : n < 10
    · simp [natToDigitsAux, h]
    · simp only [natToDigitsAux, if_neg h]
      rw [ih (n / 10), ih (n / 10) [Nat.digitChar (n % 10)]]
      simp

theorem digitsVal_append_one (xs : List Char) (c : Char) :
    digitsVal (xs ++ [c]) = 10 * digitsVal xs + (c.toNat - 48) := by
  simp [digitsVal, List.foldl_append]

theorem digitChar_toNat (d : Nat) (h : d < 10) : (Nat.digitChar d).toNat - 48 = d := by
  interval_cases d <;> decide

theorem digitChar_ne_us (d : Nat) (h : d < 10) : Nat.digitChar d ≠ '_' := by
  interval_cases d <;> decide

theorem digitsVal_natToDigitsAux (fuel : Nat) : ∀ n, n ≤ fuel →
    digitsVal (natToDigitsAux fuel n []) = n := by
  induction fuel with
  | zero =>
    intro n hn
    interval_cases n
    decide
  | succ fuel ih =>
    intro n hn
    by_cases h : n < 10
    · simp only [natToDigitsAux, if_pos h]
      show digitsVal [Nat.digitChar (n % 10)] = n
      have h1 := digitChar_toNat (n % 10) (Nat.mod_lt _ (by omega))
      simp [digitsVal, h1]
      omega
    · simp only [natToDigitsAux, if_neg h]
      rw [natToDigitsAux_append]
      rw [digitsVal_append_one]
      rw [ih (n / 10) (by omega)]
      have h1 := digitChar_toNat (n % 10) (Nat.mod_lt _ (by omega))
      omega

theorem digitsVal_natToDigits (n : Nat) : digitsVal (natToDigits n) = n :=
  digitsVal_natToDigitsAux n n (le_refl n)

theorem natToDigits_inj (m n : Nat) (h : natToDigits m = natToDigits n) : m = n := by
  have := digitsVal_natToDigits m
  rw [h, digitsVal_natToDigits] at this
  omega

theorem mem_natToDigitsAux (fuel : Nat) : ∀ n acc c, c ∈ natToDigitsAux fuel n acc →
    c ∈ acc ∨ ∃ d, d < 10 ∧ c = Nat.digitChar d := by
  induction fuel with
  | zero =>
    intro n acc c hc
    simp only [natToDigitsAux, List.mem_cons] at hc
    rcases hc with rfl | hc
    · exact Or.inr ⟨n % 10, Nat.mod_lt _ (by omega), rfl⟩
    · exact Or.inl hc
  | succ fuel ih =>
    intro n acc c hc
    by_cases h : n < 10
    · simp only [natToDigitsAux, if_pos h, List.mem_cons] at hc
      rcases hc with rfl | hc
      · exact Or.inr ⟨n % 10, Nat.mod_lt _ (by omega), rfl⟩
      · exact Or.inl hc
    · simp only [natToDigitsAux, if_neg h] at hc
      rcases ih (n / 10) _ c hc with h1 | h1
      · simp only [List.mem_cons] at h1
        rcases h1 with rfl | h1
        · exact Or.inr ⟨n % 10, Nat.mod_lt _ (by omega), rfl⟩
        · exact Or.inl h1
      · exact Or.inr h1

theorem us_not_mem_natToDigits (n : Nat) : '_' ∉ natToDigits n := by
  intro hmem
  rcases mem_natToDigitsAux n n [] '_' hmem with h | ⟨d, hd, he⟩
  · simp at h
  · exact digitChar_ne_us d hd he.symm

/-! ### The lexicographic order -/

theorem lexLt_asymm : ∀ a b : Str, lexLt a b = true → lexLt b a = false := by
  intro a
  induction a with
  | nil => intro b _; cases b <;> simp [lexLt]
  | cons x as ih =>
    intro b hab
    cases b with
    | nil => simp [lexLt] at hab
    | cons y bs =>
      simp only [lexLt] at hab ⊢
      by_cases h1 : x < y
      · have h2 : ¬ y < x := fun h => absurd h1 (not_lt.mpr h.le)
        simp [h1, h2]
      · by_cases h2 : y < x
        · simp [h1, h2] at hab
        · simp only [if_neg h1, if_neg h2] at hab ⊢
          exact ih bs hab

theorem lexLt_trans : ∀ a b c : Str,
    lexLt a b = true → lexLt b c = true → lexLt a c = true := by
  intro a
  induction a with
  | nil =>
    intro b c hab hbc
    cases b with
    | nil => simp [lexLt] at hab
    | cons y bs =>
      cases c with
      | nil => simp [lexLt] at hbc
      | cons z cs => simp [lexLt]
  | cons x as ih =>
    intro b c hab hbc
    cases b with
    | nil => simp [lexLt] at hab
    | cons y bs =>
      cases c with
      | nil => simp [lexLt] at hbc
      | cons z cs =>
        simp only [lexLt] at hab hbc ⊢
        by_cases h1 : x < y
        · by_cases h2 : y < z
          · simp [lt_trans h1 h2]
          · by_cases h3 : z < y
            · simp [h2, h3] at hbc
            · have hyz : y = z := le_antisymm (not_lt.mp h3) (not_lt.mp h2)
              subst hyz
              simp [h1]
        · by_cases h1' : y < x
          · simp [h1, h1'] at hab
          · have hxy : x = y := le_antisymm (not_lt.mp h1') (not_lt.mp h1)
            subst hxy
            simp only [if_neg h1, lt_irrefl, ite_false, if_neg (lt_irrefl x)] at hab
            by_cases h2 : x < z
            · simp [h2]
            · by_cases h3 : z < x
              · simp [h2, h3] at hbc
              · simp only [if_neg h2, if_neg h3] at hbc ⊢
                exact ih bs cs hab hbc

theorem lexLt_total : ∀ a b : Str, a ≠ b → lexLt a b = true ∨ lexLt b a = true := by
  intro a
  induction a with
  | nil =>
    intro b hne
    cases b with
    | nil => exact absurd rfl hne
    | cons y bs => left; simp [lexLt]
  | cons x as ih =>
    intro b hne
    cases b with
    | nil => right; simp [lexLt]
    | cons y bs =>
      rcases lt_trichotomy x y with h | h | h
      · left
        simp [lexLt, h]
      · subst h
        have has : as ≠ bs := fun h => hne (by rw [h])
        rcases ih bs has with h1 | h1 <;>
          simp [lexLt, lt_irrefl, h1]
      · right
        simp [lexLt, h]

/-- Strict comparator on map entries, on their event-id keys. -/
def entryLt (a b : Str × StoredEvent) : Prop := lexLt a.1 b.1 = true

instance : IsTotal (Str × StoredEvent) entryLe where
  total a b := by
    unfold entryLe
    by_cases h : lexLt b.1 a.1 = false
    · exact Or.inl h
    · right
      exact lexLt_asymm b.1 a.1 (by revert h; cases lexLt b.1 a.1 <;> simp)

instance : IsTrans (Str × StoredEvent) entryLe where
  trans a b c hab hbc := by
    unfold entryLe at *
    by_contra hca
    have hca' : lexLt c.1 a.1 = true := by revert hca; cases lexLt c.1 a.1 <;> simp
    by_cases he : c.1 = b.1
    · rw [he] at hca'
      rw [hca'] at hab
      exact absurd hab (by simp)
    · rcases lexLt_total c.1 b.1 he with h1 | h1
      · rw [h1] at hbc; exact absurd hbc (by simp)
      · have := lexLt_trans b.1 c.1 a.1 h1 hca'
        rw [this] at hab
        exact absurd hab (by simp)

instance : IsAntisymm (Str × StoredEvent) entryLt where
  antisymm a b hab hba := by
    unfold entryLt at *
    rw [lexLt_asymm a.1 b.1 hab] at hba
    exact absurd hba (by simp)

/-! ### Facts about splitting, trimming and the event-id prefix -/

theorem takeWhile_append_stop (p : Char → Bool) (x : Char) (hx : p x = false) :
    ∀ (s t : Str), (∀ a ∈ s, p a = true) → ((s ++ x :: t).takeWhile p) = s := by
  intro s
  induction s with
  | nil => intro t _; simp [List.takeWhile_cons, hx]
  | cons a s' ih =>
    intro t hall
    have ha : p a = true := hall a (by simp)
    simp only [List.cons_append, List.takeWhile_cons, ha, if_true]
    rw [ih t fun b hb => hall b (by simp [hb])]

theorem takeWhile_append_of_mem_false (p : Char → Bool) (x : Char) (hx : p x = false) :
    ∀ (s t : Str), x ∈ s → ((s ++ t).takeWhile p) = s.takeWhile p := by
  intro s
  induction s with
  | nil => intro t h; simp at h
  | cons a s' ih =>
    intro t hmem
    by_cases ha : p a = true
    · have hxa : x ≠ a := fun h => by rw [h] at hx; rw [hx] at ha; cases ha
      have hmem' : x ∈ s' := by
        rcases List.mem_cons.mp hmem with h | h
        · exact absurd h hxa
        · exact h
      simp only [List.cons_append, List.takeWhile_cons, ha, if_true]
      rw [ih t hmem']
    · have ha' : p a = false := by revert ha; cases p a <;> simp
      simp [List.takeWhile_cons, ha']

theorem mem_takeWhile_pred (p : Char → Bool) :
    ∀ (l : Str) (c : Char), c ∈ l.takeWhile p → p c = true := by
  intro l
  induction l with
  | nil => intro c h; simp [List.takeWhile] at h
  | cons a l' ih =>
    intro c h
    by_cases ha : p a = true
    · simp only [List.takeWhile_cons, ha, if_true, List.mem_cons] at h
      rcases h with rfl | h
      · exact ha
      · exact ih c h
    · have ha' : p a = false := by revert ha; cases p a <;> simp
      simp [List.takeWhile_cons, ha'] at h

theorem splitOnChar_ne_nil (c : Char) : ∀ l : Str, splitOnChar c l ≠ [] := by
  intro l
  cases l with
  | nil => simp [splitOnChar]
  | cons x xs =>
    simp only [splitOnChar]
    by_cases h : x = c
    · simp [h]
    · simp only [if_neg h]
      cases splitOnChar c xs <;> simp

theorem headD_splitOnChar (c : Char) :
    ∀ l : Str, (splitOnChar c l).headD [] = l.takeWhile fun a => a != c := by
  intro l
  induction l with
  | nil => rfl
  | cons x xs ih =>
    by_cases h : x = c
    · subst h
      simp [splitOnChar, List.takeWhile_cons]
    · have hb : (x != c) = true := by simp [bne_iff_ne, h]
      simp only [splitOnChar, if_neg h, List.takeWhile_cons, hb, if_true]
      cases hsp : splitOnChar c xs with
      | nil => exact absurd hsp (splitOnChar_ne_nil c xs)
      | cons hd tl =>
        rw [hsp] at ih
        simp only [List.headD] at ih ⊢
        rw [ih]

theorem getStreamId_gen_of_no_us (s : Str) (hs : '_' ∉ s) (t : Nat) (r : Str) :
    getStreamIdFromEventId (generateEventId s t r) = s := by
  unfold getStreamIdFromEventId generateEventId
  rw [headD_splitOnChar]
  exact takeWhile_append_stop (fun a => a != '_') '_' (by decide) s _
    fun a ha => by
      have hne : a ≠ '_' := fun h => hs (h ▸ ha)
      simp [bne_iff_ne, hne]

theorem getStreamId_gen_of_us (s : Str) (hs : '_' ∈ s) (t : Nat) (r : Str) :
    getStreamIdFromEventId (generateEventId s t r) ≠ s := by
  unfold getStreamIdFromEventId generateEventId
  rw [headD_splitOnChar]
  rw [takeWhile_append_of_mem_false (fun a => a != '_') '_' (by decide) s _ hs]
  intro heq
  have := mem_takeWhile_pred _ s '_' (heq ▸ hs)
  simp at this

theorem mem_dropWhile_of_mem (p : Char → Bool) :
    ∀ (l : Str) (c : Char), c ∈ l → p c = false → c ∈ l.dropWhile p := by
  intro l
  induction l with
  | nil => intro c h _; simp at h
  | cons a l' ih =>
    intro c hmem hc
    by_cases ha : p a = true
    · simp only [List.dropWhile_cons, ha, if_true]
      rcases List.mem_cons.mp hmem with rfl | h
      · rw [hc] at ha; cases ha
      · exact ih c h hc
    · have ha' : p a = false := by revert ha; cases p a <;> simp
      simp only [List.dropWhile_cons, ha', Bool.false_eq_true, if_false]
      exact hmem

theorem jsTrim_ne_nil_of_mem (l : Str) (c : Char) (hc : c ∈ l) (hw : isJsWs c = false) :
    jsTrim l ≠ [] := by
  unfold jsTrim
  have h1 : c ∈ l.dropWhile isJsWs := mem_dropWhile_of_mem _ l c hc hw
  have h2 : c ∈ (l.dropWhile isJsWs).reverse := List.mem_reverse.mpr h1
  have h3 : c ∈ (l.dropWhile isJsWs).reverse.dropWhile isJsWs :=
    mem_dropWhile_of_mem _ _ c h2 hw
  exact List.ne_nil_of_mem (List.mem_reverse.mpr h3)

theorem us_mem_generateEventId (s : Str) (t : Nat) (r : Str) :
    '_' ∈ generateEventId s t r := by
  unfold generateEventId
  simp

theorem jsTrim_generateEventId_ne_nil (s : Str) (t : Nat) (r : Str) :
    jsTrim (generateEventId s t r) ≠ [] :=
  jsTrim_ne_nil_of_mem _ '_' (us_mem_generateEventId s t r) (by decide)

/-! ### Facts about the map and `buildStore` -/

theorem mapHas_iff (m : EventsMap) (k : Str) :
    mapHas m k = true ↔ k ∈ m.map Prod.fst := by
  induction m with
  | nil => simp [mapHas]
  | cons e rest ih =>
    simp only [mapHas, List.any_cons, Bool.or_eq_true, beq_iff_eq, List.map_cons,
      List.mem_cons] at *
    constructor
    · rintro (h | h)
      · exact Or.inl h.symm
      · exact Or.inr (ih.mp h)
    · rintro (h | h)
      · exact Or.inl h.symm
      · exact Or.inr (ih.mpr h)

theorem mapSet_fresh (m : EventsMap) (k : Str) (v : StoredEvent)
    (h : k ∉ m.map Prod.fst) : mapSet m k v = m ++ [(k, v)] := by
  induction m with
  | nil => rfl
  | cons e rest ih =>
    obtain ⟨k', v'⟩ := e
    simp only [List.map_cons, List.mem_cons] at h
    push_neg at h
    simp only [mapSet, if_neg (Ne.symm h.1)]
    rw [ih h.2]
    simp

theorem buildStore_go (calls : List StoreCall) : ∀ acc : EventsMap,
    ((acc.map Prod.fst) ++ calls.map callId).Nodup →
    calls.foldl (fun m c => (storeEvent m c.streamId c.message c.now c.rand).1) acc
      = acc ++ calls.map callEntry := by
  induction calls with
  | nil => intro acc _; simp
  | cons c rest ih =>
    intro acc h
    have hfresh : callId c ∉ acc.map Prod.fst := by
      rcases List.nodup_append.mp h with ⟨_, _, hdisj⟩
      intro hmem
      exact hdisj hmem (by simp [List.map_cons])
    simp only [List.foldl_cons]
    have hstep : (storeEvent acc c.streamId c.message c.now c.rand).1
        = acc ++ [callEntry c] := by
      unfold storeEvent callEntry callId
      exact mapSet_fresh acc _ _ hfresh
    rw [hstep]
    rw [ih (acc ++ [callEntry c]) ?_]
    · simp
    · have : (acc ++ [callEntry c]).map Prod.fst ++ rest.map callId
          = acc.map Prod.fst ++ (c :: rest).map callId := by
        simp [callEntry]
      rw [this]
      exact h

theorem buildStore_eq (calls : List StoreCall) (h : (calls.map callId).Nodup) :
    buildStore calls = calls.map callEntry := by
  have := buildStore_go calls [] (by simpa)
  simpa [buildStore] using this

/-! ### The replay scan -/

theorem replayScan_found (s last : Str) :
    ∀ l : List (Str × StoredEvent),
    last ∉ ((l.filter fun e => e.2.streamId == s).map Prod.fst) →
    replayScan s last l true
      = (l.filter fun e => e.2.streamId == s).map fun e => (e.1, e.2.message) := by
  intro l
  induction l with
  | nil => intro _; rfl
  | cons e rest ih =>
    obtain ⟨eid, ev⟩ := e
    intro hnot
    by_cases hstream : ev.streamId = s
    · have hfil : (((eid, ev) :: rest).filter fun e => e.2.streamId == s)
          = (eid, ev) :: (rest.filter fun e => e.2.streamId == s) := by
        simp [List.filter_cons, hstream]
      rw [hfil] at hnot ⊢
      simp only [List.map_cons, List.mem_cons] at hnot
      push_neg at hnot
      have hne : ¬ eid = last := fun h => hnot.1 h.symm
      simp only [replayScan, if_neg (not_not_intro hstream), if_neg hne, if_pos rfl,
        List.map_cons]
      rw [ih hnot.2]
      simp
    · have hfil : (((eid, ev) :: rest).filter fun e => e.2.streamId == s)
          = rest.filter fun e => e.2.streamId == s := by
        simp [List.filter_cons, hstream]
      rw [hfil] at hnot ⊢
      simp only [replayScan, if_pos hstream]
      exact ih hnot

theorem replayScan_before (s last : Str) (ev : StoredEvent) :
    ∀ l : List (Str × StoredEvent), ((l.map Prod.fst).Nodup) →
    ∀ E1 E2, (l.filter fun e => e.2.streamId == s) = E1 ++ (last, ev) :: E2 →
    replayScan s last l false = E2.map fun e => (e.1, e.2.message) := by
  intro l
  induction l with
  | nil =>
    intro _ E1 E2 hfil
    simp only [List.filter_nil] at hfil
    exact absurd hfil.symm (List.append_ne_nil_of_right_ne_nil E1 (by simp))
  | cons e rest ih =>
    obtain ⟨eid, ev'⟩ := e
    intro hnd E1 E2 hfil
    have hnd' : (rest.map Prod.fst).Nodup := by
      simp only [List.map_cons, List.nodup_cons] at hnd
      exact hnd.2
    have hhead : eid ∉ rest.map Prod.fst := by
      simp only [List.map_cons, List.nodup_cons] at hnd
      exact hnd.1
    by_cases hstream : ev'.streamId = s
    · have hfil' : (((eid, ev') :: rest).filter fun e => e.2.streamId == s)
          = (eid, ev') :: (rest.filter fun e => e.2.streamId == s) := by
        simp [List.filter_cons, hstream]
      rw [hfil'] at hfil
      cases E1 with
      | nil =>
        simp only [List.nil_append, List.cons.injEq, Prod.mk.injEq] at hfil
        obtain ⟨⟨heid, hev⟩, hrest⟩ := hfil
        have hnotin : last ∉ ((rest.filter fun e => e.2.streamId == s).map Prod.fst) := by
          rw [← heid]
          intro hmem
          exact hhead (List.map_subset Prod.fst (List.filter_subset' _) hmem)
        simp only [replayScan, if_neg (not_not_intro hstream), if_pos heid]
        rw [replayScan_found s last rest hnotin, hrest]
      | cons x E1' =>
        simp only [List.cons_append, List.cons.injEq] at hfil
        obtain ⟨hx, hrest⟩ := hfil
        have hlast_mem : last ∈ rest.map Prod.fst := by
          have : (last, ev) ∈ rest.filter fun e => e.2.streamId == s := by
            rw [hrest]; simp
          exact List.mem_map.mpr ⟨(last, ev), List.mem_of_mem_filter this, rfl⟩
        have hne : ¬ eid = last := fun h => hhead (h ▸ hlast_mem)
        simp only [replayScan, if_neg (not_not_intro hstream), if_neg hne,
          if_neg (by simp : ¬ (false = true))]
        exact ih hnd' E1' E2 hrest
    · have hfil' : (((eid, ev') :: rest).filter fun e => e.2.streamId == s)
          = rest.filter fun e => e.2.streamId == s := by
        simp [List.filter_cons, hstream]
      rw [hfil'] at hfil
      simp only [replayScan, if_pos hstream]
      exact ih hnd' E1 E2 hfil

/-! ### Replay correctness -/

theorem entryLt_of_entryLe_ne (a b : Str × StoredEvent)
    (hle : entryLe a b) (hne : a.1 ≠ b.1) : entryLt a b := by
  unfold entryLe at hle
  unfold entryLt
  rcases lexLt_total a.1 b.1 hne with h | h
  · exact h
  · rw [h] at hle; cases hle

theorem keys_map_callEntry (calls : List StoreCall) :
    (calls.map callEntry).map Prod.fst = calls.map callId := by
  rw [List.map_map]
  rfl

theorem filter_stream_map_callEntry (calls : List StoreCall) (s : Str) :
    ((calls.map callEntry).filter fun e => e.2.streamId == s)
      = (streamEvents s calls).map callEntry := by
  rw [List.map_filter]
  congr 1

theorem streamEvents_getD_streamId (s : Str) (calls : List StoreCall) (k : Nat)
    (hk : k < (streamEvents s calls).length) :
    ((streamEvents s calls).getD k dummyCall).streamId = s := by
  rw [List.getD_eq_getElem _ _ hk]
  have hmem : (streamEvents s calls)[k] ∈ streamEvents s calls := List.getElem_mem hk
  have := (List.mem_filter.mp hmem).2
  exact beq_iff_eq.mp this

theorem sorted_filter_eq (calls : List StoreCall) (s : Str)
    (hids : (calls.map callId).Nodup)
    (hsorted : ((streamEvents s calls).map callId).Pairwise fun a b => lexLt a b = true) :
    ((List.insertionSort entryLe (calls.map callEntry)).filter fun e => e.2.streamId == s)
      = (streamEvents s calls).map callEntry := by
  set L := calls.map callEntry with hL
  have hperm : (List.insertionSort entryLe L).Perm L := List.perm_insertionSort entryLe L
  have hkeysnd : ((List.insertionSort entryLe L).map Prod.fst).Nodup := by
    have : (L.map Prod.fst).Nodup := by rw [hL, keys_map_callEntry]; exact hids
    exact this.perm (hperm.map Prod.fst).symm
  -- the filtered sorted list is strictly sorted on keys
  have hsorted1 : ((List.insertionSort entryLe L).filter fun e => e.2.streamId == s).Pairwise entryLt := by
    have hle : (List.insertionSort entryLe L).Pairwise entryLe :=
      List.sorted_insertionSort entryLe L
    have hnekeys : (List.insertionSort entryLe L).Pairwise fun a b => a.1 ≠ b.1 :=
      List.pairwise_map.mp hkeysnd
    exact ((hle.and hnekeys).imp fun h => entryLt_of_entryLe_ne _ _ h.1 h.2).filter _
  -- the insertion-order stream list is strictly sorted on keys too
  have hsorted2 : ((streamEvents s calls).map callEntry).Pairwise entryLt := by
    rw [List.pairwise_map]
    rw [List.pairwise_map] at hsorted
    exact hsorted
  -- and they are permutations of each other
  have hperm2 : (((List.insertionSort entryLe L).filter fun e => e.2.streamId == s)).Perm
      ((streamEvents s calls).map callEntry) := by
    have := hperm.filter fun e => e.2.streamId == s
    rw [hL] at this
    rw [filter_stream_map_callEntry] at this
    rw [← hL] at this
    exact this
  haveI : IsAntisymm (Str × StoredEvent) entryLt := inferInstance
  exact List.eq_of_perm_of_sorted hperm2 hsorted1 hsorted2

/-- Claim C1 (amended): for every sequence of `storeEvent` calls whose
generated event ids are pairwise distinct, and every stream whose identifier
is nonempty and contains no underscore and whose event ids sort (in the
store's lexicographic order) consistently with insertion order, resuming with
the id of the stream's `k`-th stored event replays exactly the stream's later
events, in insertion order, and returns the stream identifier. -/
theorem c1_replayEventsAfter_correct (calls : List StoreCall) (s : Str) (k : Nat)
    (hne : s ≠ []) (hnu : '_' ∉ s)
    (hids : (calls.map callId).Nodup)
    (hsorted : ((streamEvents s calls).map callId).Pairwise fun a b => lexLt a b = true)
    (hk : k < (streamEvents s calls).length) :
    replayEventsAfter (buildStore calls) (callId ((streamEvents s calls).getD k dummyCall))
      = (s, ((streamEvents s calls).drop (k + 1)).map fun c => (callId c, c.message)) := by
  set E := streamEvents s calls with hE
  set ek := E.getD k dummyCall with hek
  set last := callId ek with hlast
  have hmemE : ek ∈ E := by
    rw [hek, List.getD_eq_getElem _ _ hk]
    exact List.getElem_mem hk
  have hmemcalls : ek ∈ calls := List.mem_of_mem_filter hmemE
  have hstore : buildStore calls = calls.map callEntry := buildStore_eq calls hids
  -- the guard conditions
  have htrim : jsTrim last ≠ [] := jsTrim_generateEventId_ne_nil _ _ _
  have hhas : mapHas (buildStore calls) last = true := by
    rw [hstore, mapHas_iff, keys_map_callEntry]
    exact List.mem_map.mpr ⟨ek, hmemcalls, rfl⟩
  have hstream_ek : ek.streamId = s := streamEvents_getD_streamId s calls k hk
  have hgetstream : getStreamIdFromEventId last = s := by
    rw [hlast]
    unfold callId
    rw [hstream_ek]
    exact getStreamId_gen_of_no_us s hnu _ _
  -- the scan result
  have hsplit : E.map callEntry
      = (E.take k).map callEntry ++ (last, (⟨ek.streamId, ek.message⟩ : StoredEvent))
          :: (E.drop (k + 1)).map callEntry := by
    conv_lhs => rw [← List.take_append_drop k E]
    rw [List.map_append, List.drop_eq_getElem_cons hk]
    rw [← List.getD_eq_getElem E dummyCall hk, ← hek]
    rfl
  have hfil : ((List.insertionSort entryLe (calls.map callEntry)).filter
        fun e => e.2.streamId == s)
      = (E.take k).map callEntry ++ (last, (⟨ek.streamId, ek.message⟩ : StoredEvent))
          :: (E.drop (k + 1)).map callEntry := by
    rw [sorted_filter_eq calls s hids hsorted, ← hE, hsplit]
  have hndsorted : ((List.insertionSort entryLe (calls.map callEntry)).map Prod.fst).Nodup := by
    have h1 : ((calls.map callEntry).map Prod.fst).Nodup := by
      rw [keys_map_callEntry]; exact hids
    exact h1.perm ((List.perm_insertionSort entryLe _).map Prod.fst).symm
  have hscan : replayScan s last (List.insertionSort entryLe (calls.map callEntry)) false
      = ((E.drop (k + 1)).map callEntry).map fun e => (e.1, e.2.message) :=
    replayScan_before s last _ _ hndsorted _ _ hfil
  -- assemble
  unfold replayEventsAfter
  rw [if_neg (by simp [htrim, hhas])]
  simp only [hgetstream]
  rw [if_neg hne]
  rw [hstore, hscan, List.map_map]
  rfl

/-! ### Claims about the event store -/

theorem c1_witness :
    let calls := [(⟨"a".data, "m1".data, 1, "r1".data⟩ : StoreCall),
      ⟨"b".data, "x".data, 2, "q".data⟩, ⟨"a".data, "m2".data, 3, "r2".data⟩]
    ("a".data : Str) ≠ [] ∧ '_' ∉ ("a".data : Str)
    ∧ (calls.map callId).Nodup
    ∧ ((streamEvents "a".data calls).map callId).Pairwise (fun a b => lexLt a b = true)
    ∧ 0 < (streamEvents "a".data calls).length
    ∧ replayEventsAfter (buildStore calls)
        (callId ((streamEvents "a".data calls).getD 0 dummyCall))
      = ("a".data, ((streamEvents "a".data calls).drop 1).map fun c => (callId c, c.message)) :=
  ⟨by decide, by decide, by decide, by decide, by decide,
    c1_replayEventsAfter_correct _ _ 0 (by decide) (by decide) (by decide) (by decide)
      (by decide)⟩

/-- Claim C1 (counterexample to the claim as stated): on the stream `"a_b"`,
whose identifier contains an underscore, resuming with the first event's id
replays nothing and returns `"a"` (the truncated prefix) instead of replaying
the second event and returning `"a_b"`. -/
theorem c1_counterexample :
    replayEventsAfter
        (buildStore [(⟨"a_b".data, "m1".data, 1, "aa".data⟩ : StoreCall),
          ⟨"a_b".data, "m2".data, 2, "bb".data⟩])
        (callId (⟨"a_b".data, "m1".data, 1, "aa".data⟩ : StoreCall))
      = ("a".data, [])
    ∧ ("a".data : Str) ≠ "a_b".data := by decide

/-- Claim C3 (code-bug exhibit): two `storeEvent` calls on stream `"s"` within
the same millisecond (timestamp 1000), with random suffixes `"zz"` then
`"aa"`, produce event ids on which the store's ordering reverses insertion
order, and a subsequent resume from the first event's id replays nothing even
though a later event of the stream exists. -/
theorem c3_order_violated :
    (storeEvent [] "s".data "m1".data 1000 "zz".data).2 = "s_1000_zz".data
    ∧ (storeEvent (storeEvent [] "s".data "m1".data 1000 "zz".data).1
        "s".data "m2".data 1000 "aa".data).2 = "s_1000_aa".data
    ∧ lexLt "s_1000_zz".data "s_1000_aa".data = false
    ∧ lexLt "s_1000_aa".data "s_1000_zz".data = true
    ∧ replayEventsAfter
        (buildStore [(⟨"s".data, "m1".data, 1000, "zz".data⟩ : StoreCall),
          ⟨"s".data, "m2".data, 1000, "aa".data⟩])
        "s_1000_zz".data
      = ("s".data, []) := by decide

/-- Claim C4 (counterexample to the claim as stated): two `storeEvent` calls
with the same stream, the same millisecond timestamp and the same random
suffix return the same event id, and the second call overwrites the first
stored event. -/
theorem c4_counterexample :
    (storeEvent [] "s".data "m1".data 1000 "aa".data).2
      = (storeEvent (storeEvent [] "s".data "m1".data 1000 "aa".data).1
          "s".data "m2".data 1000 "aa".data).2
    ∧ (storeEvent (storeEvent [] "s".data "m1".data 1000 "aa".data).1
        "s".data "m2".data 1000 "aa".data).1
      = [("s_1000_aa".data, ⟨"s".data, "m2".data⟩)] := by decide

theorem generateEventId_inj_of_same_stream (s : Str) (t1 t2 : Nat) (r1 r2 : Str)
    (h : generateEventId s t1 r1 = generateEventId s t2 r2) : t1 = t2 ∧ r1 = r2 := by
  unfold generateEventId at h
  have h1 : natToDigits t1 ++ ('_' :: r1) = natToDigits t2 ++ ('_' :: r2) :=
    List.cons_injective.eq_iff.mp (List.append_cancel_left h)
  have hall : ∀ (t : Nat), ∀ a ∈ natToDigits t, (a != '_') = true := by
    intro t a ha
    have : a ≠ '_' := fun he => us_not_mem_natToDigits t (he ▸ ha)
    simp [bne_iff_ne, this]
  have hd : natToDigits t1 = natToDigits t2 := by
    have e1 := takeWhile_append_stop (fun a => a != '_') '_' (by decide)
      (natToDigits t1) r1 (hall t1)
    have e2 := takeWhile_append_stop (fun a => a != '_') '_' (by decide)
      (natToDigits t2) r2 (hall t2)
    rw [← e1, ← e2, h1]
  refine ⟨natToDigits_inj t1 t2 hd, ?_⟩
  rw [hd] at h1
  exact List.cons_injective.eq_iff.mp (List.append_cancel_left h1)

/-- Claim C4 (amended): every `storeEvent` call returns an id that extends its
stream id, and two calls on the same stream return distinct ids provided the
(timestamp, random suffix) pairs observed by the two calls differ — and then
the second call appends without overwriting the first stored event. -/
theorem c4_distinct_ids (s m1 m2 : Str) (t1 t2 : Nat) (r1 r2 : Str)
    (h : t1 ≠ t2 ∨ r1 ≠ r2) :
    (∃ rest, (storeEvent [] s m1 t1 r1).2 = s ++ rest)
    ∧ (storeEvent [] s m1 t1 r1).2
        ≠ (storeEvent (storeEvent [] s m1 t1 r1).1 s m2 t2 r2).2
    ∧ (storeEvent (storeEvent [] s m1 t1 r1).1 s m2 t2 r2).1
        = [(generateEventId s t1 r1, ⟨s, m1⟩), (generateEventId s t2 r2, ⟨s, m2⟩)] := by
  have hne : generateEventId s t1 r1 ≠ generateEventId s t2 r2 := by
    intro he
    rcases generateEventId_inj_of_same_stream s t1 t2 r1 r2 he with ⟨ht, hr⟩
    rcases h with h | h
    · exact h ht
    · exact h hr
  refine ⟨⟨'_' :: (natToDigits t1 ++ ('_' :: r1)), rfl⟩, hne, ?_⟩
  show mapSet [(generateEventId s t1 r1, ⟨s, m1⟩)] (generateEventId s t2 r2) ⟨s, m2⟩ = _
  simp only [mapSet, if_neg hne]

theorem c4_witness :
    ((1 : Nat) ≠ 2 ∨ ("aa".data : Str) ≠ "bb".data)
    ∧ (∃ rest, (storeEvent [] "s".data "m1".data 1 "aa".data).2 = "s".data ++ rest)
    ∧ (storeEvent [] "s".data "m1".data 1 "aa".data).2
        ≠ (storeEvent (storeEvent [] "s".data "m1".data 1 "aa".data).1
            "s".data "m2".data 2 "bb".data).2
    ∧ (storeEvent (storeEvent [] "s".data "m1".data 1 "aa".data).1
        "s".data "m2".data 2 "bb".data).1
        = [(generateEventId "s".data 1 "aa".data, ⟨"s".data, "m1".data⟩),
           (generateEventId "s".data 2 "bb".data, ⟨"s".data, "m2".data⟩)] :=
  ⟨Or.inl (by decide),
    c4_distinct_ids "s".data "m1".data "m2".data 1 2 "aa".data "bb".data (Or.inl (by decide))⟩

/-- Claim C8: replaying with an empty or whitespace-only `lastEventId`, or one
matching no stored event id, returns the empty-stream indicator, forwards
zero events to the sink, and raises no error. -/
theorem c8_replay_unknown_or_empty (events : EventsMap) (lastEventId : Str)
    (h : jsTrim lastEventId = [] ∨ mapHas events lastEventId = false) :
    replayEventsAfter events lastEventId = ([], []) := by
  unfold replayEventsAfter
  rw [if_pos h]

theorem c8_witness :
    ((jsTrim "  ".data = ([] : Str)
        ∨ mapHas (buildStore [(⟨"a".data, "m".data, 5, "rr".data⟩ : StoreCall)]) "  ".data = false)
      ∧ replayEventsAfter (buildStore [(⟨"a".data, "m".data, 5, "rr".data⟩ : StoreCall)])
          "  ".data = ([], []))
    ∧ ((jsTrim "nope".data = ([] : Str)
        ∨ mapHas (buildStore [(⟨"a".data, "m".data, 5, "rr".data⟩ : StoreCall)]) "nope".data = false)
      ∧ replayEventsAfter (buildStore [(⟨"a".data, "m".data, 5, "rr".data⟩ : StoreCall)])
          "nope".data = ([], [])) :=
  ⟨⟨Or.inl (by decide),
      c8_replay_unknown_or_empty _ _ (Or.inl (by decide))⟩,
    ⟨Or.inr (by decide),
      c8_replay_unknown_or_empty _ _ (Or.inr (by decide))⟩⟩

/-- Claim C10: the stream id the store derives from a `storeEvent` result (the
text before the first underscore) equals the original stream id exactly when
that stream id contains no underscore; with an underscore it is a strictly
shorter prefix and never equals the original. -/
theorem c10_stream_id_roundtrip (store : EventsMap) (s m : Str) (t : Nat) (r : Str) :
    ('_' ∉ s → getStreamIdFromEventId (storeEvent store s m t r).2 = s)
    ∧ ('_' ∈ s → getStreamIdFromEventId (storeEvent store s m t r).2 ≠ s) := by
  constructor
  · intro h
    exact getStreamId_gen_of_no_us s h t r
  · intro h
    exact getStreamId_gen_of_us s h t r

theorem c10_witness :
    getStreamIdFromEventId (storeEvent [] "abc".data "m".data 7 "r8".data).2 = "abc".data
    ∧ getStreamIdFromEventId (storeEvent [] "a_b".data "m".data 7 "r8".data).2 ≠ "a_b".data :=
  ⟨(c10_stream_id_roundtrip [] "abc".data "m".data 7 "r8".data).1 (by decide),
    (c10_stream_id_roundtrip [] "a_b".data "m".data 7 "r8".data).2 (by decide)⟩

/-! ### The HTTP handlers over the session registry (`src/server.ts`) -/

/-- HTTP verbs served on the MCP endpoint. -/
inductive Method
  | post
  | get
  | del
deriving DecidableEq, Repr

/-- An inbound request, as the handlers inspect it: the `mcp-session-id`
header and whether `isInitializeRequest(req.body)` holds. -/
structure McpRequest where
  sessionId : Option String
  isInit : Bool
deriving DecidableEq, Repr

/-- The handler's observable response: a JSON-RPC error with HTTP status and
code, a plain-text error with HTTP status, or delegation to the session's
transport (`transport.handleRequest`). -/
inductive McpResponse
  | jsonError (status : Nat) (code : Int) (message : String)
  | textError (status : Nat) (message : String)
  | handled
deriving DecidableEq, Repr

/-- The module-level `transports` map, abstracted to its key set (the
registered session ids), in insertion order. -/
abbrev Registry := List String

/-- Registration of a session id (`transports.set` by the
`onsessioninitialized` callback). -/
def registrySet (transports : Registry) (sid : String) : Registry :=
  if transports.contains sid then transports else transports ++ [sid]

/-- The handler `mcpPostHandler`: dispatch on the session header.  In the initialize
branch the SDK transport generates a fresh session id (`newSid`, an
environment input) and the `onsessioninitialized` callback registers it. -/
def mcpPostHandler (transports : Registry) (req : McpRequest) (newSid : String) :
    McpResponse × Registry :=
  match req.sessionId with
  | some sid =>
    if sid ≠ "" then
      if transports.contains sid then (.handled, transports)
      else (.jsonError 400 (-32001) "Bad Request: Transport not initialized", transports)
    else
      if req.isInit then (.handled, registrySet transports newSid)
      else (.jsonError 400 (-32000) "Bad Request: No valid session ID provided", transports)
  | none =>
    if req.isInit then (.handled, registrySet transports newSid)
    else (.jsonError 400 (-32000) "Bad Request: No valid session ID provided", transports)

/-- The handler `mcpGetHandler`: a missing, empty or unknown session id is rejected with a
plain-text 400; otherwise the request is delegated to the transport.  (The
handler's second `transports.get` lookup after `has` coincides with the
membership test in this model.) -/
def mcpGetHandler (transports : Registry) (req : McpRequest) : McpResponse × Registry :=
  match req.sessionId with
  | none => (.textError 400 "Invalid or missing session ID", transports)
  | some sid =>
    if sid = "" ∨ transports.contains sid = false then
      (.textError 400 "Invalid or missing session ID", transports)
    else (.handled, transports)

/-- The handler `mcpDeleteHandler`: same session-id guard as the GET handler. -/
def mcpDeleteHandler (transports : Registry) (req : McpRequest) : McpResponse × Registry :=
  match req.sessionId with
  | none => (.textError 400 "Invalid or missing session ID", transports)
  | some sid =>
    if sid = "" ∨ transports.contains sid = false then
      (.textError 400 "Invalid or missing session ID", transports)
    else (.handled, transports)

/-- The endpoint: `app.post`, `app.get`, `app.delete` on the single path. -/
def handleMcp (m : Method) (transports : Registry) (req : McpRequest) (newSid : String) :
    McpResponse × Registry :=
  match m with
  | .post => mcpPostHandler transports req newSid
  | .get => mcpGetHandler transports req
  | .del => mcpDeleteHandler transports req

/-- Claim C2: every request that neither carries a registered session id nor
is a POST with an initialize body is answered with a 400 client error — for
POST with an unknown id the "Transport not initialized" JSON error, for POST
without a session id the "No valid session ID provided" JSON error, and for
GET or DELETE the "Invalid or missing session ID" text error — and the
session registry is left unchanged. -/
theorem c2_unauthorized_requests_rejected (m : Method) (transports : Registry)
    (req : McpRequest) (newSid : String)
    (hreg : ∀ sid, req.sessionId = some sid → sid ≠ "" → transports.contains sid = false)
    (hinit : m = .post → (req.sessionId = none ∨ req.sessionId = some "") →
      req.isInit = false) :
    (handleMcp m transports req newSid).2 = transports
    ∧ (handleMcp m transports req newSid).1 =
        match m, req.sessionId with
        | .post, some sid =>
          if sid = "" then
            McpResponse.jsonError 400 (-32000) "Bad Request: No valid session ID provided"
          else
            McpResponse.jsonError 400 (-32001) "Bad Request: Transport not initialized"
        | .post, none =>
          McpResponse.jsonError 400 (-32000) "Bad Request: No valid session ID provided"
        | .get, _ => McpResponse.textError 400 "Invalid or missing session ID"
        | .del, _ => McpResponse.textError 400 "Invalid or missing session ID" := by
  obtain ⟨osid, init⟩ := req
  cases m with
  | post =>
    cases osid with
    | none =>
      have hni : init = false := hinit rfl (Or.inl rfl)
      simp [handleMcp, mcpPostHandler, hni]
    | some sid =>
      by_cases hempty : sid = ""
      · subst hempty
        have hni : init = false := hinit rfl (Or.inr rfl)
        simp [handleMcp, mcpPostHandler, hni]
      · have hnc : transports.contains sid = false := hreg sid rfl hempty
        have hnm : sid ∉ transports := by simpa using hnc
        simp [handleMcp, mcpPostHandler, hempty, hnc, hnm]
  | get =>
    cases osid with
    | none => simp [handleMcp, mcpGetHandler]
    | some sid =>
      by_cases hempty : sid = ""
      · subst hempty
        simp [handleMcp, mcpGetHandler]
      · have hnc : transports.contains sid = false := hreg sid rfl hempty
        have hnm : sid ∉ transports := by simpa using hnc
        simp [handleMcp, mcpGetHandler, hempty, hnc, hnm]
  | del =>
    cases osid with
    | none => simp [handleMcp, mcpDeleteHandler]
    | some sid =>
      by_cases hempty : sid = ""
      · subst hempty
        simp [handleMcp, mcpDeleteHandler]
      · have hnc : transports.contains sid = false := hreg sid rfl hempty
        have hnm : sid ∉ transports := by simpa using hnc
        simp [handleMcp, mcpDeleteHandler, hempty, hnc, hnm]

theorem c2_witness :
    (handleMcp .post ["sess-1"] ⟨some "unknown", true⟩ "fresh").2 = ["sess-1"]
    ∧ (handleMcp .post ["sess-1"] ⟨some "unknown", true⟩ "fresh").1
        = McpResponse.jsonError 400 (-32001) "Bad Request: Transport not initialized" :=
  c2_unauthorized_requests_rejected .post ["sess-1"] ⟨some "unknown", true⟩ "fresh"
    (fun sid h hne => by cases h; decide)
    (fun _ h => by rcases h with h | h <;> exact absurd h (by decide))

/-! ### The tool registry (`registerTools` in `src/server.ts`) -/

/-- The `ActualClient` operations invoked by the read-only tool handlers. -/
inductive ClientOp
  | getAccounts
  | getTransactions
  | getBalanceHistory
  | getSpendingByCategory
  | getMonthlySummary
  | getGroupedCategories
  | getPayees
  | getRules
  | generateFinancialInsights
  | generateBudgetReview
deriving DecidableEq, Repr

/-- What a registered tool handler does when invoked: either it forwards to
one `ActualClient` operation and returns its JSON rendering, or it is a stub
returning a fixed text without touching the client (the source comments the
client call out). -/
inductive ToolBehavior
  | readOnly (op : ClientOp)
  | stub (text : String)
deriving DecidableEq, Repr

/-- The fixed refusal text of every mutating tool handler. -/
def readOnlyRefusal : String :=
  "Only READ operations are supported currently. Your request was not processed."

/-- The tools registered by `registerTools`, in registration order, each with
its handler's behavior. -/
def registerToolsList : List (String × ToolBehavior) :=
  [("get-accounts", .readOnly .getAccounts),
   ("get-transactions", .readOnly .getTransactions),
   ("add-transaction", .stub readOnlyRefusal),
   ("update-transaction", .stub readOnlyRefusal),
   ("delete-transaction", .stub readOnlyRefusal),
   ("get-balance-history", .readOnly .getBalanceHistory),
   ("get-spending-by-category", .readOnly .getSpendingByCategory),
   ("get-monthly-summary", .readOnly .getMonthlySummary),
   ("get-grouped-categories", .readOnly .getGroupedCategories),
   ("create-category", .stub readOnlyRefusal),
   ("update-category", .stub readOnlyRefusal),
   ("delete-category", .stub readOnlyRefusal),
   ("create-category-group", .stub readOnlyRefusal),
   ("update-category-group", .stub readOnlyRefusal),
   ("delete-category-group", .stub readOnlyRefusal),
   ("get-payees", .readOnly .getPayees),
   ("create-payee", .stub readOnlyRefusal),
   ("update-payee", .stub readOnlyRefusal),
   ("delete-payee", .stub readOnlyRefusal),
   ("get-rules", .readOnly .getRules),
   ("create-rule", .stub readOnlyRefusal),
   ("update-rule", .stub readOnlyRefusal),
   ("delete-rule", .stub readOnlyRefusal),
   ("generate-financial-insights", .readOnly .generateFinancialInsights),
   ("generate-budget-review", .readOnly .generateBudgetReview),
   ("apply-budget-changes", .stub readOnlyRefusal)]

/-- Responses of the backend, per operation (an environment oracle). -/
abbrev ToolEnv := ClientOp → String

/-- Invoking a tool handler: the text it returns and the `ActualClient`
operations it performs. -/
def invokeTool (b : ToolBehavior) (env : ToolEnv) : String × List ClientOp :=
  match b with
  | .readOnly op => (env op, [op])
  | .stub text => (text, [])

/-- The mutating tools named by the claim. -/
def mutatingToolNames : List String :=
  ["add-transaction", "update-transaction", "delete-transaction",
   "create-category", "update-category", "delete-category",
   "create-category-group", "update-category-group", "delete-category-group",
   "create-payee", "update-payee", "delete-payee",
   "create-rule", "update-rule", "delete-rule",
   "apply-budget-changes"]

/-- Claim C9: every mutating tool handler registered in `registerTools`
returns the fixed refusal text and performs no `ActualClient` operation, so
no call to these tools changes budget data or backend connection state. -/
theorem c9_mutating_tools_are_stubs (name : String) (hname : name ∈ mutatingToolNames)
    (env : ToolEnv) :
    (registerToolsList.lookup name).map (fun b => invokeTool b env)
      = some (readOnlyRefusal, []) := by
  fin_cases hname <;> rfl

theorem c9_witness :
    ("add-transaction" ∈ mutatingToolNames)
    ∧ (registerToolsList.lookup "add-transaction").map
        (fun b => invokeTool b (fun _ => "")) = some (readOnlyRefusal, []) :=
  ⟨by decide, c9_mutating_tools_are_stubs "add-transaction" (by decide) (fun _ => "")⟩

/-! ### The backend client (`src/actual/client.ts`): configuration and
initialization -/

/-- The client's `initConfig` (string fields as character lists, like the
event store's strings). -/
structure ActualConfig where
  serverURL : Str
  password : Str
  dataDir : Str
  syncId : Str
  encryptionPass : Option Str
deriving DecidableEq, Repr

/-- The remote operations `initActualApi` and `shutdown` perform. -/
inductive NetCall
  | mkdir (dataDir : Str)
  | apiInit (dataDir serverURL : Str)
  | downloadBudget (syncId : Str)
  | apiShutdown
deriving DecidableEq, Repr

deriving instance DecidableEq for Except

/-- Environment outcomes for the remote operations awaited during
initialization. -/
structure NetEnv where
  mkdirOk : Except Str Unit
  initOk : Except Str Unit
  downloadOk : Except Str Unit
deriving DecidableEq, Repr

/-- The error message thrown when required configuration is missing. -/
def configMissingMsg : Str :=
  "Actual API init failed: ACTUAL_SERVER_URL, ACTUAL_PASSWORD, and ACTUAL_SYNC_ID are required".data

/-- The method `initActualApi` (the `ActualClient` variant whose missing-configuration
guard throws): checks `serverURL.trim() !== ''`, `password !== ''` and
`syncId !== ''` and throws the configuration error before any remote call;
otherwise performs `mkdir`, `api.init`, and — since `syncId` is nonempty —
`api.downloadBudget`, propagating any rejection.  Returns the remote calls
performed together with the settled outcome of the returned promise. -/
def initActualApi (config : ActualConfig) (net : NetEnv) :
    List NetCall × Except Str Unit :=
  if jsTrim config.serverURL = [] ∨ config.password = [] ∨ config.syncId = [] then
    ([], .error configMissingMsg)
  else
    match net.mkdirOk with
    | .error e => ([.mkdir config.dataDir], .error e)
    | .ok _ =>
      match net.initOk with
      | .error e => ([.mkdir config.dataDir, .apiInit config.dataDir config.serverURL], .error e)
      | .ok _ =>
        if config.syncId ≠ [] then
          match net.downloadOk with
          | .error e =>
            ([.mkdir config.dataDir, .apiInit config.dataDir config.serverURL,
              .downloadBudget config.syncId], .error e)
          | .ok _ =>
            ([.mkdir config.dataDir, .apiInit config.dataDir config.serverURL,
              .downloadBudget config.syncId], .ok ())
        else ([.mkdir config.dataDir, .apiInit config.dataDir config.serverURL], .ok ())

/-- The client's connection state: the stored configuration, the settled
outcome and remote-call trace of the current `ready` promise, and whether a
`shutdownPromise` is pending. -/
structure ActualClient where
  initConfig : ActualConfig
  ready : Except Str Unit
  readyTrace : List NetCall
  shutdownInFlight : Bool
deriving DecidableEq, Repr

/-- The constructor: stores the configuration and starts
`this.ready = this.initActualApi(this.initConfig)`. -/
def mkActualClient (config : ActualConfig) (net : NetEnv) : ActualClient :=
  { initConfig := config
    ready := (initActualApi config net).2
    readyTrace := (initActualApi config net).1
    shutdownInFlight := false }

/-- The method `ensureReady()` awaits `this.ready`, re-raising its failure. -/
def ensureReady (c : ActualClient) : Except Str Unit := c.ready

/-- A representative domain call (`getAccounts`): awaits readiness, then
returns the remote result (an environment input). -/
def clientGetAccounts (c : ActualClient) (accounts : Str) : Except Str Str :=
  match ensureReady c with
  | .error e => .error e
  | .ok _ => .ok accounts

/-- Claim C5: if any required backend configuration value (server URL,
password, sync id) is empty, initialization fails fast with the configuration
error before any remote call, and every subsequent `ensureReady` / domain
call re-raises that configuration failure rather than succeeding silently. -/
theorem c5_config_error_fails_fast (config : ActualConfig) (net : NetEnv) (accounts : Str)
    (h : jsTrim config.serverURL = [] ∨ config.password = [] ∨ config.syncId = []) :
    initActualApi config net = ([], .error configMissingMsg)
    ∧ ensureReady (mkActualClient config net) = .error configMissingMsg
    ∧ clientGetAccounts (mkActualClient config net) accounts = .error configMissingMsg := by
  have h1 : initActualApi config net = ([], .error configMissingMsg) := by
    unfold initActualApi
    rw [if_pos h]
  refine ⟨h1, ?_, ?_⟩
  · show (initActualApi config net).2 = .error configMissingMsg
    rw [h1]
  · show clientGetAccounts (mkActualClient config net) accounts = _
    unfold clientGetAccounts
    show (match ensureReady (mkActualClient config net) with
      | .error e => (.error e : Except Str Str)
      | .ok _ => .ok accounts) = _
    show (match (initActualApi config net).2 with
      | .error e => (.error e : Except Str Str)
      | .ok _ => .ok accounts) = _
    rw [h1]

theorem c5_witness :
    (jsTrim ("http://localhost:5006".data : Str) = []
      ∨ ([] : Str) = [] ∨ ("sync-1".data : Str) = [])
    ∧ initActualApi
        ⟨"http://localhost:5006".data, [], "./.actual-data".data, "sync-1".data, none⟩
        ⟨.ok (), .ok (), .ok ()⟩ = ([], .error configMissingMsg)
    ∧ ensureReady (mkActualClient
        ⟨"http://localhost:5006".data, [], "./.actual-data".data, "sync-1".data, none⟩
        ⟨.ok (), .ok (), .ok ()⟩) = .error configMissingMsg
    ∧ clientGetAccounts (mkActualClient
        ⟨"http://localhost:5006".data, [], "./.actual-data".data, "sync-1".data, none⟩
        ⟨.ok (), .ok (), .ok ()⟩) "[]".data = .error configMissingMsg :=
  ⟨Or.inr (Or.inl rfl),
    c5_config_error_fails_fast _ _ "[]".data (Or.inr (Or.inl rfl))⟩

/-- Running `shutdown()` to completion with no concurrent caller (the in-flight
case is covered by the interleaving system below): if a shutdown promise is
already pending the sequential model is out of scope (`none`); otherwise the
body awaits `ensureReady` — a rejected `ready` rejects the shared promise and
leaves it set — and on success performs the remote close (whose failure is
swallowed), then resets `ready` to a fresh `initActualApi` attempt and clears
the shutdown promise. -/
def runShutdown (c : ActualClient) (renet : NetEnv) :
    Option (Except Str Unit × ActualClient) :=
  if c.shutdownInFlight then none
  else
    match c.ready with
    | .error e => some (.error e, { c with shutdownInFlight := true })
    | .ok _ =>
      some (.ok (),
        { c with
            ready := (initActualApi c.initConfig renet).2
            readyTrace := (initActualApi c.initConfig renet).1
            shutdownInFlight := false })

theorem initActualApi_downloads (config : ActualConfig) (net : NetEnv)
    (h1 : jsTrim config.serverURL ≠ []) (h2 : config.password ≠ [])
    (h3 : config.syncId ≠ []) (h4 : net.mkdirOk = .ok ()) (h5 : net.initOk = .ok ()) :
    NetCall.downloadBudget config.syncId ∈ (initActualApi config net).1 := by
  unfold initActualApi
  rw [if_neg (by simp [h1, h2, h3]), h4, h5, if_pos h3]
  cases net.downloadOk <;> simp

/-- Claim C7: after any successful completion of `shutdown()`, the client's
connection state is reset — the shutdown promise is cleared and `ready` is a
fresh `initActualApi` attempt on the stored configuration — so the next
`ensureReady` / domain call gets the outcome of a fresh initialization
(including a fresh remote-data download when the configuration is complete
and the connection succeeds) instead of failing permanently. -/
theorem c7_shutdown_resets_state (c : ActualClient) (renet : NetEnv)
    (hfree : c.shutdownInFlight = false) (hready : c.ready = .ok ()) :
    ∃ c', runShutdown c renet = some (.ok (), c')
      ∧ c'.shutdownInFlight = false
      ∧ c'.initConfig = c.initConfig
      ∧ c'.ready = (initActualApi c.initConfig renet).2
      ∧ ensureReady c' = (initActualApi c.initConfig renet).2
      ∧ (jsTrim c.initConfig.serverURL ≠ [] → c.initConfig.password ≠ [] →
          c.initConfig.syncId ≠ [] → renet.mkdirOk = .ok () → renet.initOk = .ok () →
          NetCall.downloadBudget c.initConfig.syncId ∈ c'.readyTrace) := by
  refine ⟨{ c with
      ready := (initActualApi c.initConfig renet).2
      readyTrace := (initActualApi c.initConfig renet).1
      shutdownInFlight := false }, ?_, rfl, rfl, rfl, rfl, ?_⟩
  · unfold runShutdown
    rw [if_neg (by simp [hfree]), hready]
  · intro h1 h2 h3 h4 h5
    exact initActualApi_downloads c.initConfig renet h1 h2 h3 h4 h5

theorem c7_witness :
    ((mkActualClient
        ⟨"http://a".data, "pw".data, "./d".data, "sync-1".data, none⟩
        ⟨.ok (), .ok (), .ok ()⟩).shutdownInFlight = false)
    ∧ ((mkActualClient
        ⟨"http://a".data, "pw".data, "./d".data, "sync-1".data, none⟩
        ⟨.ok (), .ok (), .ok ()⟩).ready = .ok ())
    ∧ ∃ c', runShutdown (mkActualClient
          ⟨"http://a".data, "pw".data, "./d".data, "sync-1".data, none⟩
          ⟨.ok (), .ok (), .ok ()⟩) ⟨.ok (), .ok (), .ok ()⟩ = some (.ok (), c')
        ∧ c'.shutdownInFlight = false
        ∧ c'.initConfig = ⟨"http://a".data, "pw".data, "./d".data, "sync-1".data, none⟩
        ∧ c'.ready = (initActualApi
            ⟨"http://a".data, "pw".data, "./d".data, "sync-1".data, none⟩
            ⟨.ok (), .ok (), .ok ()⟩).2
        ∧ ensureReady c' = (initActualApi
            ⟨"http://a".data, "pw".data, "./d".data, "sync-1".data, none⟩
            ⟨.ok (), .ok (), .ok ()⟩).2
        ∧ (jsTrim ("http://a".data : Str) ≠ [] → ("pw".data : Str) ≠ [] →
            ("sync-1".data : Str) ≠ [] →
            (Except.ok () : Except Str Unit) = .ok () →
            (Except.ok () : Except Str Unit) = .ok () →
            NetCall.downloadBudget "sync-1".data ∈ c'.readyTrace) := by
  refine ⟨by decide, by decide, ?_⟩
  have h := c7_shutdown_resets_state (mkActualClient
      ⟨"http://a".data, "pw".data, "./d".data, "sync-1".data, none⟩
      ⟨.ok (), .ok (), .ok ()⟩) ⟨.ok (), .ok (), .ok ()⟩ (by decide) (by decide)
  rcases h with ⟨c', h1, h2, h3, h4, h5, h6⟩
  exact ⟨c', h1, h2, h3, h4, h5, h6⟩

/-! ### Concurrent `shutdown()` (`ActualClient.shutdown`)

The body of `shutdown()` is an async function with two suspension points
(`await this.ensureReady()` and `await api.shutdown()`); everything between
suspension points runs atomically on the event loop.  Each caller of
`shutdown()` is a process:

* `entry` — about to run the synchronous prologue: the `shutdownPromise`
  null-check and, when null, the creation and assignment of the shared
  promise (one atomic step, since the prologue contains no `await`);
* `awaitShared t` — suspended on `await this.shutdownPromise` for the
  shutdown promise with token `t` created by another caller;
* `bodyReady t` — owns promise `t`; its body is suspended on
  `await this.ensureReady()`; resuming issues the remote `api.shutdown()`
  call;
* `bodyApi t` — body suspended on `await api.shutdown()`; resuming runs
  the synchronous epilogue: reset `this.ready` to a fresh init attempt,
  clear `this.shutdownPromise`, and resolve promise `t` (a rejected
  `ready` instead rejects the shared promise without a remote close, which
  performs even fewer remote calls and resolves all waiters alike);
* `done t` — this caller resolved with the outcome of shutdown `t`. -/

/-- Program counter of one `shutdown()` caller. -/
inductive ShutdownPc
  | entry
  | awaitShared (t : Nat)
  | bodyReady (t : Nat)
  | bodyApi (t : Nat)
  | done (t : Nat)
deriving DecidableEq, Repr

/-- Global state: the `shutdownPromise` field (token of the pending shared
promise, if any), the token counter, the number of `api.shutdown`
invocations, the resolved tokens, and each caller's program counter. -/
structure ShutdownSys (n : Nat) where
  inFlight : Option Nat
  nextTok : Nat
  apiCalls : Nat
  finished : List Nat
  pcs : Fin n → ShutdownPc

/-- Update one caller's program counter. -/
def updPcs {n : Nat} (p : Fin n → ShutdownPc) (i : Fin n) (v : ShutdownPc) :
    Fin n → ShutdownPc :=
  fun j => if j = i then v else p j

/-- One scheduler step: run caller `i` until its next suspension point (a
no-op when the caller is blocked or finished). -/
def shutdownStep {n : Nat} (s : ShutdownSys n) (i : Fin n) : ShutdownSys n :=
  match s.pcs i with
  | .entry =>
    match s.inFlight with
    | some t => { s with pcs := updPcs s.pcs i (.awaitShared t) }
    | none =>
      { s with
          inFlight := some s.nextTok
          nextTok := s.nextTok + 1
          pcs := updPcs s.pcs i (.bodyReady s.nextTok) }
  | .bodyReady t =>
    { s with
        apiCalls := s.apiCalls + 1
        pcs := updPcs s.pcs i (.bodyApi t) }
  | .bodyApi t =>
    { s with
        inFlight := none
        finished := t :: s.finished
        pcs := updPcs s.pcs i (.done t) }
  | .awaitShared t =>
    if t ∈ s.finished then { s with pcs := updPcs s.pcs i (.done t) } else s
  | .done _ => s

/-- All callers poised to call `shutdown()` on a quiescent client. -/
def initShutdownSys (n : Nat) : ShutdownSys n :=
  { inFlight := none, nextTok := 0, apiCalls := 0, finished := [], pcs := fun _ => .entry }

/-- Run a schedule of caller steps. -/
def runShutdownSys {n : Nat} (sched : List (Fin n)) : ShutdownSys n :=
  sched.foldl shutdownStep (initShutdownSys n)

/-- The body token of a caller, when its body is running. -/
def pcBody : ShutdownPc → Option Nat
  | .bodyReady t => some t
  | .bodyApi t => some t
  | _ => none

/-- The body token of a caller that has already issued `api.shutdown`. -/
def pcApi : ShutdownPc → Option Nat
  | .bodyApi t => some t
  | _ => none

/-- The shutdown token a caller resolved with. -/
def resolvedTok : ShutdownPc → Option Nat
  | .done t => some t
  | _ => none

theorem updPcs_self {n : Nat} (p : Fin n → ShutdownPc) (i : Fin n) (v : ShutdownPc) :
    updPcs p i v i = v := by simp [updPcs]

theorem updPcs_ne {n : Nat} (p : Fin n → ShutdownPc) (i j : Fin n) (v : ShutdownPc)
    (h : j ≠ i) : updPcs p i v j = p j := by simp [updPcs, h]

theorem exists_pcApi_updPcs {n : Nat} (p : Fin n → ShutdownPc) (i : Fin n)
    (v : ShutdownPc) (hv : pcApi v = none) (hold : pcApi (p i) = none) :
    (∃ j, (pcApi (updPcs p i v j)).isSome) ↔ (∃ j, (pcApi (p j)).isSome) := by
  constructor
  · rintro ⟨j, hj⟩
    by_cases hji : j = i
    · subst hji
      rw [updPcs_self, hv] at hj
      simp at hj
    · rw [updPcs_ne _ _ _ _ hji] at hj
      exact ⟨j, hj⟩
  · rintro ⟨j, hj⟩
    by_cases hji : j = i
    · subst hji
      rw [hold] at hj
      simp at hj
    · exact ⟨j, by rwa [updPcs_ne _ _ _ _ hji]⟩

theorem pcBody_isSome_of_pcApi {v : ShutdownPc} (h : (pcApi v).isSome) :
    (pcBody v).isSome := by
  cases v <;> simp [pcApi, pcBody] at *

/-- The inductive invariant of the shutdown system. -/
structure SysInv {n : Nat} (s : ShutdownSys n) : Prop where
  ntok : s.nextTok = s.finished.length + (if s.inFlight.isSome then 1 else 0)
  api : s.apiCalls = s.finished.length
    + (if ∃ j, (pcApi (s.pcs j)).isSome then 1 else 0)
  bodyFlight : ∀ i t, pcBody (s.pcs i) = some t → s.inFlight = some t
  bodyUnique : ∀ i j, (pcBody (s.pcs i)).isSome → (pcBody (s.pcs j)).isSome → i = j
  tokFin : ∀ t, s.inFlight = some t → t = s.finished.length
  tokLt : ∀ i t, s.pcs i = .awaitShared t ∨ s.pcs i = .done t → t < s.nextTok

theorem inv_init (n : Nat) : SysInv (initShutdownSys n) := by
  constructor <;> simp [initShutdownSys, pcApi, pcBody]

theorem inv_step {n : Nat} (s : ShutdownSys n) (i : Fin n) (h : SysInv s) :
    SysInv (shutdownStep s i) := by
  cases hpc : s.pcs i with
  | entry =>
    cases hif : s.inFlight with
    | some t =>
      have hold : pcApi (s.pcs i) = none := by rw [hpc]; rfl
      simp only [shutdownStep, hpc, hif]
      refine ⟨?_, ?_, ?_, ?_, ?_, ?_⟩ <;> dsimp only
      · exact hif ▸ h.ntok
      · rw [h.api]
        have hiff := exists_pcApi_updPcs s.pcs i (.awaitShared t) rfl hold
        simp only [hiff]
      · intro j t' hj
        by_cases hji : j = i
        · subst hji
          rw [updPcs_self] at hj
          cases hj
        · rw [updPcs_ne _ _ _ _ hji] at hj
          have hb := h.bodyFlight j t' hj
          rw [hif] at hb
          exact hb
      · intro j k hj hk
        by_cases hji : j = i
        · subst hji
          rw [updPcs_self] at hj
          simp [pcBody] at hj
        · by_cases hki : k = i
          · subst hki
            rw [updPcs_self] at hk
            simp [pcBody] at hk
          · rw [updPcs_ne _ _ _ _ hji] at hj
            rw [updPcs_ne _ _ _ _ hki] at hk
            exact h.bodyUnique j k hj hk
      · intro t' ht'
        injection ht' with h2
        subst h2
        exact h.tokFin _ hif
      · intro j t' hj
        by_cases hji : j = i
        · subst hji
          rw [updPcs_self] at hj
          have ht : t' = t := by rcases hj with hj | hj <;> cases hj; rfl
          subst ht
          have h1 := h.tokFin t' hif
          rw [h.ntok, hif, h1]
          simp
        · rw [updPcs_ne _ _ _ _ hji] at hj
          exact h.tokLt j t' hj
    | none =>
      have hold : pcApi (s.pcs i) = none := by rw [hpc]; rfl
      have hnobody : ∀ j, pcBody (s.pcs j) = none := by
        intro j
        cases hb : pcBody (s.pcs j) with
        | none => rfl
        | some t' =>
          have := h.bodyFlight j t' hb
          rw [hif] at this
          cases this
      simp only [shutdownStep, hpc, hif]
      refine ⟨?_, ?_, ?_, ?_, ?_, ?_⟩ <;> dsimp only
      · rw [h.ntok, hif]
        simp
      · rw [h.api]
        have hiff := exists_pcApi_updPcs s.pcs i (.bodyReady s.nextTok) rfl hold
        simp only [hiff]
      · intro j t' hj
        by_cases hji : j = i
        · subst hji
          rw [updPcs_self] at hj
          simp only [pcBody] at hj
          cases hj
          rfl
        · rw [updPcs_ne _ _ _ _ hji, hnobody j] at hj
          cases hj
      · intro j k hj hk
        by_cases hji : j = i
        · by_cases hki : k = i
          · rw [hji, hki]
          · rw [updPcs_ne _ _ _ _ hki, hnobody k] at hk
            simp at hk
        · rw [updPcs_ne _ _ _ _ hji, hnobody j] at hj
          simp at hj
      · intro t' ht'
        cases ht'
        rw [h.ntok, hif]
        simp
      · intro j t' hj
        by_cases hji : j = i
        · subst hji
          rw [updPcs_self] at hj
          rcases hj with hj | hj <;> cases hj
        · rw [updPcs_ne _ _ _ _ hji] at hj
          exact Nat.lt_succ_of_lt (h.tokLt j t' hj)
  | bodyReady t =>
    have hflight : s.inFlight = some t := h.bodyFlight i t (by rw [hpc]; rfl)
    have hnoapi : ¬ ∃ j, (pcApi (s.pcs j)).isSome := by
      rintro ⟨j, hj⟩
      have hji := h.bodyUnique j i (pcBody_isSome_of_pcApi hj) (by rw [hpc]; simp [pcBody])
      subst hji
      rw [hpc] at hj
      simp [pcApi] at hj
    simp only [shutdownStep, hpc]
    refine ⟨?_, ?_, ?_, ?_, ?_, ?_⟩ <;> dsimp only
    · exact h.ntok
    · have hyes : ∃ j, (pcApi (updPcs s.pcs i (.bodyApi t) j)).isSome :=
        ⟨i, by rw [updPcs_self]; rfl⟩
      rw [if_pos hyes, h.api, if_neg hnoapi]
    · intro j t' hj
      by_cases hji : j = i
      · subst hji
        rw [updPcs_self] at hj
        simp only [pcBody] at hj
        cases hj
        exact hflight
      · rw [updPcs_ne _ _ _ _ hji] at hj
        exact h.bodyFlight j t' hj
    · intro j k hj hk
      by_cases hji : j = i
      · by_cases hki : k = i
        · rw [hji, hki]
        · rw [updPcs_ne _ _ _ _ hki] at hk
          have := h.bodyUnique k i hk (by rw [hpc]; simp [pcBody])
          exact absurd this hki
      · rw [updPcs_ne _ _ _ _ hji] at hj
        have := h.bodyUnique j i hj (by rw [hpc]; simp [pcBody])
        exact absurd this hji
    · exact h.tokFin
    · intro j t' hj
      by_cases hji : j = i
      · subst hji
        rw [updPcs_self] at hj
        rcases hj with hj | hj <;> cases hj
      · rw [updPcs_ne _ _ _ _ hji] at hj
        exact h.tokLt j t' hj
  | bodyApi t =>
    have hflight : s.inFlight = some t := h.bodyFlight i t (by rw [hpc]; rfl)
    have htok : t = s.finished.length := h.tokFin t hflight
    have hyes : ∃ j, (pcApi (s.pcs j)).isSome := ⟨i, by rw [hpc]; rfl⟩
    have hnobody2 : ∀ j, j ≠ i → pcBody (s.pcs j) = none := by
      intro j hji
      cases hb : pcBody (s.pcs j) with
      | none => rfl
      | some t' =>
        have := h.bodyUnique j i (by rw [hb]; rfl) (by rw [hpc]; simp [pcBody])
        exact absurd this hji
    simp only [shutdownStep, hpc]
    refine ⟨?_, ?_, ?_, ?_, ?_, ?_⟩ <;> dsimp only
    · rw [h.ntok, hflight]
      simp
    · have hno : ¬ ∃ j, (pcApi (updPcs s.pcs i (.done t) j)).isSome := by
        rintro ⟨j, hj⟩
        by_cases hji : j = i
        · subst hji
          rw [updPcs_self] at hj
          simp [pcApi] at hj
        · rw [updPcs_ne _ _ _ _ hji] at hj
          have := pcBody_isSome_of_pcApi hj
          rw [hnobody2 j hji] at this
          simp at this
      rw [if_neg hno, h.api, if_pos hyes]
      simp
    · intro j t' hj
      by_cases hji : j = i
      · subst hji
        rw [updPcs_self] at hj
        simp [pcBody] at hj
      · rw [updPcs_ne _ _ _ _ hji, hnobody2 j hji] at hj
        cases hj
    · intro j k hj hk
      by_cases hji : j = i
      · by_cases hki : k = i
        · rw [hji, hki]
        · rw [updPcs_ne _ _ _ _ hki, hnobody2 k hki] at hk
          simp at hk
      · rw [updPcs_ne _ _ _ _ hji, hnobody2 j hji] at hj
        simp at hj
    · intro t' ht'
      cases ht'
    · intro j t' hj
      by_cases hji : j = i
      · subst hji
        rw [updPcs_self] at hj
        have ht' : t' = t := by rcases hj with hj | hj <;> cases hj; rfl
        subst ht'
        rw [h.ntok, hflight, htok]
        simp
      · rw [updPcs_ne _ _ _ _ hji] at hj
        exact h.tokLt j t' hj
  | awaitShared t =>
    have hold : pcApi (s.pcs i) = none := by rw [hpc]; rfl
    simp only [shutdownStep, hpc]
    by_cases hfin : t ∈ s.finished
    · rw [if_pos hfin]
      refine ⟨?_, ?_, ?_, ?_, ?_, ?_⟩ <;> dsimp only
      · exact h.ntok
      · rw [h.api]
        have hiff := exists_pcApi_updPcs s.pcs i (.done t) rfl hold
        simp only [hiff]
      · intro j t' hj
        by_cases hji : j = i
        · subst hji
          rw [updPcs_self] at hj
          cases hj
        · rw [updPcs_ne _ _ _ _ hji] at hj
          exact h.bodyFlight j t' hj
      · intro j k hj hk
        by_cases hji : j = i
        · subst hji
          rw [updPcs_self] at hj
          simp [pcBody] at hj
        · by_cases hki : k = i
          · subst hki
            rw [updPcs_self] at hk
            simp [pcBody] at hk
          · rw [updPcs_ne _ _ _ _ hji] at hj
            rw [updPcs_ne _ _ _ _ hki] at hk
            exact h.bodyUnique j k hj hk
      · exact h.tokFin
      · intro j t' hj
        by_cases hji : j = i
        · subst hji
          rw [updPcs_self] at hj
          have ht' : t' = t := by rcases hj with hj | hj <;> cases hj; rfl
          subst ht'
          exact h.tokLt j t' (Or.inl hpc)
        · rw [updPcs_ne _ _ _ _ hji] at hj
          exact h.tokLt j t' hj
    · rw [if_neg hfin]
      exact h
  | done t =>
    simp only [shutdownStep, hpc]
    exact h

theorem inv_run {n : Nat} (sched : List (Fin n)) : SysInv (runShutdownSys sched) := by
  suffices hgen : ∀ s : ShutdownSys n, SysInv s → SysInv (sched.foldl shutdownStep s) by
    exact hgen _ (inv_init n)
  induction sched with
  | nil => intro s hs; exact hs
  | cons i rest ih =>
    intro s hs
    exact ih _ (inv_step s i hs)

theorem pcBody_eq_of_pcApi {v : ShutdownPc} {t : Nat} (h : pcApi v = some t) :
    pcBody v = some t := by
  cases v <;> simp [pcApi, pcBody] at * <;> exact h

theorem runShutdownSys_take_succ {n : Nat} (sched : List (Fin n)) (k : Nat)
    (hk : k < sched.length) :
    runShutdownSys (sched.take (k + 1))
      = shutdownStep (runShutdownSys (sched.take k)) sched[k] := by
  unfold runShutdownSys
  rw [List.take_succ, List.getElem?_eq_getElem hk, List.foldl_append]
  rfl

theorem shutdownStep_nextTok {n : Nat} (s : ShutdownSys n) (i : Fin n) :
    (shutdownStep s i).nextTok = s.nextTok
    ∨ (s.pcs i = .entry ∧ s.inFlight = none
        ∧ (shutdownStep s i).nextTok = s.nextTok + 1) := by
  cases hpc : s.pcs i with
  | entry =>
    cases hif : s.inFlight with
    | some t =>
      left
      simp [shutdownStep, hpc, hif]
    | none =>
      right
      exact ⟨rfl, rfl, by simp [shutdownStep, hpc, hif]⟩
  | bodyReady t =>
    left
    simp [shutdownStep, hpc]
  | bodyApi t =>
    left
    simp [shutdownStep, hpc]
  | awaitShared t =>
    left
    by_cases hfin : t ∈ s.finished <;> simp [shutdownStep, hpc, hfin]
  | done t =>
    left
    simp [shutdownStep, hpc]

theorem nextTok_le_one {n : Nat} (sched : List (Fin n))
    (hconc : ∀ k, k ≤ sched.length →
      (∃ i, (runShutdownSys (sched.take k)).pcs i = .entry) →
      (runShutdownSys (sched.take k)).finished = []) :
    ∀ k, k ≤ sched.length → (runShutdownSys (sched.take k)).nextTok ≤ 1 := by
  intro k
  induction k with
  | zero =>
    intro _
    simp [runShutdownSys, initShutdownSys]
  | succ k ih =>
    intro hk1
    have hk : k < sched.length := by omega
    rw [runShutdownSys_take_succ sched k hk]
    rcases shutdownStep_nextTok (runShutdownSys (sched.take k)) sched[k] with
      h | ⟨hent, hnone, heq⟩
    · rw [h]
      exact ih (by omega)
    · rw [heq]
      have hfin : (runShutdownSys (sched.take k)).finished = [] :=
        hconc k (by omega) ⟨sched[k], hent⟩
      have hinv := inv_run (sched.take k)
      have hz : (runShutdownSys (sched.take k)).nextTok = 0 := by
        rw [hinv.ntok, hfin, hnone]
        simp
      omega

/-- Claim C6: for every set of concurrent `shutdown()` callers — any schedule
in which no caller is still before its prologue once a shutdown has finished,
i.e. every call is made while the first shutdown is in flight or earlier —
the remote close `api.shutdown` executes at most once, and every caller that
resolved resolved with the first (shared) shutdown promise: a call made while
a shutdown is in flight awaits that shutdown instead of starting a second
one. -/
theorem c6_shutdown_at_most_once {n : Nat} (sched : List (Fin n))
    (hconc : ∀ k, k ≤ sched.length →
      (∃ i, (runShutdownSys (sched.take k)).pcs i = .entry) →
      (runShutdownSys (sched.take k)).finished = []) :
    (runShutdownSys sched).apiCalls ≤ 1
    ∧ ∀ i, resolvedTok ((runShutdownSys sched).pcs i) = none
        ∨ resolvedTok ((runShutdownSys sched).pcs i) = some 0 := by
  have hinv := inv_run sched
  have hn1 : (runShutdownSys sched).nextTok ≤ 1 := by
    have h := nextTok_le_one sched hconc sched.length (le_refl _)
    rwa [List.take_length] at h
  constructor
  · by_cases hex : ∃ j, (pcApi ((runShutdownSys sched).pcs j)).isSome
    · obtain ⟨j, hj⟩ := hex
      obtain ⟨t, ht⟩ := Option.isSome_iff_exists.mp hj
      have hb := pcBody_eq_of_pcApi ht
      have hf := hinv.bodyFlight j t hb
      have hnt : (runShutdownSys sched).nextTok
          = (runShutdownSys sched).finished.length + 1 := by
        rw [hinv.ntok, hf]
        rfl
      have hapi : (runShutdownSys sched).apiCalls
          = (runShutdownSys sched).finished.length + 1 := by
        rw [hinv.api, if_pos ⟨j, hj⟩]
      omega
    · have hapi : (runShutdownSys sched).apiCalls
          = (runShutdownSys sched).finished.length := by
        rw [hinv.api, if_neg hex]
        omega
      have hge : (runShutdownSys sched).finished.length ≤ (runShutdownSys sched).nextTok := by
        rw [hinv.ntok]
        split <;> omega
      omega
  · intro i
    cases hv : (runShutdownSys sched).pcs i with
    | done t =>
      right
      have hlt := hinv.tokLt i t (Or.inr hv)
      have ht : t = 0 := by omega
      simp [resolvedTok, ht]
    | entry =>
      left
      rfl
    | awaitShared t =>
      left
      rfl
    | bodyReady t =>
      left
      rfl
    | bodyApi t =>
      left
      rfl

theorem c6_witness :
    (∀ k, k ≤ ([0, 1, 0, 0, 1] : List (Fin 2)).length →
      (∃ i, (runShutdownSys (([0, 1, 0, 0, 1] : List (Fin 2)).take k)).pcs i
          = .entry) →
      (runShutdownSys (([0, 1, 0, 0, 1] : List (Fin 2)).take k)).finished = [])
    ∧ (runShutdownSys ([0, 1, 0, 0, 1] : List (Fin 2))).apiCalls ≤ 1
    ∧ ∀ i, resolvedTok ((runShutdownSys ([0, 1, 0, 0, 1] : List (Fin 2))).pcs i) = none
        ∨ resolvedTok ((runShutdownSys ([0, 1, 0, 0, 1] : List (Fin 2))).pcs i)
            = some 0 := by
  refine ⟨by decide, ?_⟩
  exact c6_shutdown_at_most_once ([0, 1, 0, 0, 1] : List (Fin 2)) (by decide)
